import Mathlib

/-!
Verification of the challenge coordination and scoring engine of
src/arabic_bot_full.py.

The Python module keeps its mutable module-level state in a handful of
globals: the sqlite tables struggle_words, struggle_embeddings and points,
the in-memory caches struggle_embedding_cache and _user_last_word, and the
live dictionary active_challenges guarded by _active_challenge_lock.  All
of that state is gathered into one record `BotState`; dictionaries and
tables become association lists; datetimes become integers on a seconds
timeline; numpy float32 vectors become lists of rationals.  The external
sentence-transformer model and the sklearn cosine similarity are passed in
as parameters (`encode`, returning `none` when the model call raises, and
`cosine`, returning `none` when the result is NaN).

Each operation of the source - add_struggle_word, remove_struggle_word,
get_user_struggle_words, get_random_struggle_word, evaluate_answer,
add_points, get_points, the body of the /challenge command, the
on_message listener and the _challenge_sweeper tick - is translated
line by line into a pure state-passing function below.
-/

namespace ArabicBot

/-- Embedding vectors (numpy float32 arrays in the source, line 381) are
modelled as lists of rationals. -/
abbrev Emb := List ℚ

/-- Python str.lower, modelled by lowercasing every character; the two
agree on the ASCII data used in the concrete theorems below. -/
def pyLower (s : String) : String := ⟨s.data.map Char.toLower⟩

/-- ASCII whitespace, for the model of python str.strip. -/
def isSpaceChar (c : Char) : Bool := c = ' ' || c = '\t' || c = '\n' || c = '\r'

/-- Python str.strip with no argument: whitespace removed from both ends. -/
def pyStrip (s : String) : String :=
  ⟨((s.data.dropWhile isSpaceChar).reverse.dropWhile isSpaceChar).reverse⟩

/-- CHALLENGE_TIMEOUT_SECONDS, line 25 of the source. -/
def CHALLENGE_TIMEOUT_SECONDS : Int := 90

/-- CHALLENGE_SIM_THRESHOLD, line 26 of the source: the float 0.50 as the
rational one half. -/
def CHALLENGE_SIM_THRESHOLD : ℚ := mkRat 1 2

/-- POINTS_PER_CORRECT, line 27 of the source. -/
def POINTS_PER_CORRECT : Int := 5

/-- One row of the struggle_words table as returned by
get_user_struggle_words (lines 437-442): (id, word, definition).  The
owner columns (guild_id, user_id) are kept in the surrounding list. -/
structure Row where
  id : Nat
  word : String
  definition : String
deriving DecidableEq, Repr, Inhabited

/-- One value of the active_challenges dictionary (lines 837-842): keys
struggle_id, definition, word, expires_at. -/
structure Challenge where
  struggle_id : Nat
  definition : String
  word : String
  expires_at : Int
deriving DecidableEq, Repr, Inhabited

/-- The mutable module-level state of the source that the challenge engine
touches.  words models the struggle_words table (rows tagged with guild_id
and user_id), embeddings the struggle_embeddings table keyed by
struggle_id, nextId the sqlite AUTOINCREMENT counter, cache the dict
struggle_embedding_cache (line 45), lastWord the dict _user_last_word
(line 445), active the dict active_challenges (line 49), points the points
table keyed by (guild_id, user_id). -/
structure BotState where
  words : List (Nat × Nat × Row)
  embeddings : List (Nat × Emb)
  nextId : Nat
  cache : List (Nat × Emb)
  lastWord : List (Nat × Nat)
  active : List (Nat × Challenge)
  points : List ((Nat × Nat) × Int)
deriving DecidableEq, Repr, Inhabited

/-- Lookup in an association list, the model of a python dict read and of
a keyed sqlite SELECT returning the first matching row. -/
def alookup [DecidableEq κ] (k : κ) : List (κ × α) → Option α
  | [] => none
  | e :: es => if e.1 = k then some e.2 else alookup k es

/-- Removal of a key, the model of dict.pop and of DELETE ... WHERE key. -/
def aremove [DecidableEq κ] (k : κ) : List (κ × α) → List (κ × α)
  | [] => []
  | e :: es => if e.1 = k then aremove k es else e :: aremove k es

/-- Assignment into a python dict: the key is bound to the new value and
any previous binding disappears. -/
def dictInsert [DecidableEq κ] (k : κ) (v : α) (d : List (κ × α)) :
    List (κ × α) :=
  (k, v) :: aremove k d

/-- Membership test behind the UNIQUE(guild_id, user_id, word) constraint
of the struggle_words table (line 145): the INSERT at lines 393-396 raises
IntegrityError exactly when a row with the same owner and word exists. -/
def hasWord (g u : Nat) (w : String) : List (Nat × Nat × Row) → Bool
  | [] => false
  | e :: es =>
    if e.1 = g ∧ e.2.1 = u ∧ e.2.2.word = w then true else hasWord g u w es

/-- SELECT id FROM struggle_words WHERE guild_id, user_id, word; fetchone
(lines 423-427): the id of the first matching row, if any. -/
def findWordId (g u : Nat) (w : String) : List (Nat × Nat × Row) → Option Nat
  | [] => none
  | e :: es =>
    if e.1 = g ∧ e.2.1 = u ∧ e.2.2.word = w then some e.2.2.id
    else findWordId g u w es

/-- DELETE FROM struggle_words WHERE id = sid (line 433). -/
def removeWordById (sid : Nat) : List (Nat × Nat × Row) → List (Nat × Nat × Row)
  | [] => []
  | e :: es =>
    if e.2.2.id = sid then removeWordById sid es else e :: removeWordById sid es

/-- get_user_struggle_words (lines 437-442): the rows of one owner, in
table order. -/
def get_user_struggle_words (g u : Nat) : List (Nat × Nat × Row) → List Row
  | [] => []
  | e :: es =>
    if e.1 = g ∧ e.2.1 = u then e.2.2 :: get_user_struggle_words g u es
    else get_user_struggle_words g u es

/-- Result of add_struggle_word: True, False on IntegrityError, or the
exception from the embedding call propagating out of the function. -/
inductive AddResult
  | ok
  | duplicate
  | embedFailed
deriving DecidableEq, Repr

/-- add_struggle_word (lines 388-418).  The word and definition are
lowercased (python str.lower, modelled by pyLower - the two agree on the
ASCII data used below; the source does no whitespace trimming).
The word row is inserted and committed first; embed_text is called only
afterwards, so when the embedding call raises (embed returns none) the
function aborts with the word row already committed and no embedding row.
On success the embedding row is committed and the module caches are
populated before the function returns True. -/
def add_struggle_word (embed : String → Option Emb) (g u : Nat)
    (word definition : String) (st : BotState) : AddResult × BotState :=
  let word_l := pyLower word
  let def_l := pyLower definition
  if hasWord g u word_l st.words then (.duplicate, st)
  else
    let sid := st.nextId
    let stW : BotState :=
      { st with words := st.words ++ [(g, u, { id := sid, word := word_l, definition := def_l })],
                nextId := sid + 1 }
    match embed definition with
    | none => (.embedFailed, stW)
    | some e =>
      (.ok, { stW with embeddings := stW.embeddings ++ [(sid, e)],
                       cache := dictInsert sid e stW.cache })

/-- remove_struggle_word (lines 421-435): look up the id of the owner
word, then delete the embedding row and the word row.  The module-level
caches are not touched by this function in the source. -/
def remove_struggle_word (g u : Nat) (word : String) (st : BotState) :
    Bool × BotState :=
  match findWordId g u (pyLower word) st.words with
  | none => (false, st)
  | some sid =>
    (true, { st with embeddings := aremove sid st.embeddings,
                     words := removeWordById sid st.words })

/-- Model of random.choice (lines 458): the oracle k selects a member of a
nonempty list by position modulo its length. -/
def pickAt (k : Nat) (l : List Row) : Row := l.getD (k % l.length) default

/-- Lines 456-458: the candidates are the rows whose id differs from the
remembered last id, and the draw falls back to the full row list when that
exclusion leaves nothing. -/
def choose2 (k : Nat) (last_id : Option Nat) (rows : List Row) : Row :=
  if rows.filter (fun r => decide (¬ some r.id = last_id)) = [] then pickAt k rows
  else pickAt k (rows.filter (fun r => decide (¬ some r.id = last_id)))

/-- get_random_struggle_word (lines 447-460).  The per-user memory
_user_last_word holds a single last-served id keyed by user id alone; with
two or more rows the draw is choose2 against that remembered id; the
memory is updated after selection. -/
def get_random_struggle_word (k g u : Nat) (words : List (Nat × Nat × Row))
    (lastWord : List (Nat × Nat)) : Option Row × List (Nat × Nat) :=
  match get_user_struggle_words g u words with
  | [] => (none, lastWord)
  | [r] => (some r, dictInsert u r.id lastWord)
  | r1 :: r2 :: rest =>
    (some (choose2 k (alookup u lastWord) (r1 :: r2 :: rest)),
      dictInsert u (choose2 k (alookup u lastWord) (r1 :: r2 :: rest)).id lastWord)

/-- Lines 488-492: the NaN guard (sim != sim, modelled by the similarity
being none) maps a NaN to 0.0, and every finite similarity is clamped
into the unit interval. -/
def clampScore : Option ℚ → ℚ
  | none => 0
  | some s => max 0 (min 1 s)

/-- evaluate_answer (lines 463-492).  The stored vector is served from
struggle_embedding_cache when present; on a miss the embedding row is read
from the table (a missing row scores 0.0) and the cache is populated.  The
user answer is then embedded - a raising model call (encode = none)
propagates out as an exception, modelled by a none score, with the cache
update already performed - and the cosine similarity is clamped through
the NaN guard.  The correct_definition argument is accepted and unused,
exactly as in the source. -/
def evaluate_answer (cosine : Emb → Emb → Option ℚ)
    (encode : String → Option Emb)
    (user_answer correct_definition : String) (struggle_id : Nat)
    (cache : List (Nat × Emb)) (db : List (Nat × Emb)) :
    Option ℚ × List (Nat × Emb) :=
  match alookup struggle_id cache with
  | some v =>
    ((match encode user_answer with
      | none => none
      | some ans_vec => some (clampScore (cosine v ans_vec))), cache)
  | none =>
    match alookup struggle_id db with
    | none => (some 0, cache)
    | some v =>
      ((match encode user_answer with
        | none => none
        | some ans_vec => some (clampScore (cosine v ans_vec))),
        dictInsert struggle_id v cache)

/-- add_points (lines 566-573): INSERT ... ON CONFLICT(guild_id, user_id)
DO UPDATE SET points = points + excluded.points. -/
def add_points (g u : Nat) (amount : Int) :
    List ((Nat × Nat) × Int) → List ((Nat × Nat) × Int)
  | [] => [((g, u), amount)]
  | e :: es =>
    if e.1 = (g, u) then (e.1, e.2 + amount) :: es
    else e :: add_points g u amount es

/-- get_points (lines 585-588): the stored balance, defaulting to 0. -/
def get_points (g u : Nat) (pts : List ((Nat × Nat) × Int)) : Int :=
  (alookup (g, u) pts).getD 0

/-- Result of the /challenge command body. -/
inductive OpenResult
  | opened (word : String)
  | alreadyActive
  | noWords
deriving DecidableEq, Repr

/-- The body of the /challenge command (lines 812-848).  The whole
check-then-install runs inside the single critical section of
_active_challenge_lock (line 819), so it is one atomic step here.  The
membership test at line 820 checks presence in active_challenges only -
no expiry test - and the dictionary is keyed by user id alone; on install
the expiry is now plus CHALLENGE_TIMEOUT_SECONDS (line 836). -/
def challengeCmd (k g u : Nat) (now : Int) (st : BotState) :
    OpenResult × BotState :=
  match alookup u st.active with
  | some _ => (.alreadyActive, st)
  | none =>
    match get_random_struggle_word k g u st.words st.lastWord with
    | (none, lw2) => (.noWords, { st with lastWord := lw2 })
    | (some r, lw2) =>
      (.opened r.word,
        { st with lastWord := lw2,
                  active := dictInsert u
                    { struggle_id := r.id, definition := r.definition,
                      word := r.word,
                      expires_at := now + CHALLENGE_TIMEOUT_SECONDS }
                    st.active })

/-- Outcome of one on_message run for the author of the message. -/
inductive SubmitResult
  | noChallenge
  | expired
  | evalError
  | correct (score : ℚ)
  | incorrect (score : ℚ)
deriving DecidableEq, Repr

/-- The tail of the on_message listener (lines 1407-1465): the answer is
the stripped message content, evaluate_answer runs on a worker thread (a
raised exception - a none score - is caught at lines 1418-1426, which pops
the user and reports an evaluation error), then a score at or above
CHALLENGE_SIM_THRESHOLD awards POINTS_PER_CORRECT points in the guild the
message was sent in and pops the entry, and a lower score pops the entry
without touching points.  chal is the dictionary value read at line 1387. -/
def on_message_resolve (cosine : Emb → Emb → Option ℚ)
    (encode : String → Option Emb) (g u : Nat) (content : String)
    (chal : Challenge) (st : BotState) : SubmitResult × BotState :=
  match evaluate_answer cosine encode (pyStrip content) chal.definition
      chal.struggle_id st.cache st.embeddings with
  | (none, cache2) =>
    (.evalError, { st with cache := cache2, active := aremove u st.active })
  | (some score, cache2) =>
    if CHALLENGE_SIM_THRESHOLD ≤ score then
      (.correct score,
        { st with cache := cache2,
                  points := add_points g u POINTS_PER_CORRECT st.points,
                  active := aremove u st.active })
    else
      (.incorrect score,
        { st with cache := cache2, active := aremove u st.active })

/-- The on_message listener (lines 1375-1468) run to completion with no
interleaving.  The active_challenges read at line 1387 is keyed by the
author id alone; a user with no entry falls through to command processing
(the ErrNoActiveChallenge outcome); an entry past its expiry
(now > expires_at, line 1395) is popped and reported expired without any
scoring; otherwise the answer is scored and resolved. -/
def on_message (cosine : Emb → Emb → Option ℚ)
    (encode : String → Option Emb) (g u : Nat) (content : String)
    (now : Int) (st : BotState) : SubmitResult × BotState :=
  match alookup u st.active with
  | none => (.noChallenge, st)
  | some chal =>
    if chal.expires_at < now then
      (.expired, { st with active := aremove u st.active })
    else
      on_message_resolve cosine encode g u content chal st

/-- One tick of the _challenge_sweeper task (lines 1515-1527), executed
inside the lock: every entry with now past its expiry is popped. -/
def challenge_sweeper_tick (now : Int) (st : BotState) : BotState :=
  { st with active := st.active.filter (fun e => decide (¬ e.2.expires_at < now)) }

/-- The progress of one on_message handler through its await point: the
handler reads active_challenges at line 1387 outside the lock, and if the
entry is live it suspends on asyncio.to_thread at line 1412 carrying the
value it read; the resolution code runs when the thread returns.  Another
handler for the same user can run its own read while the first is
suspended. -/
inductive TaskState
  | pending (content : String)
  | scoring (content : String) (chal : Challenge)
  | done (r : SubmitResult)
deriving DecidableEq, Repr

/-- One scheduler step of a message-handler task against the shared
state: a pending task performs the read and expiry check of lines
1387-1401 and either finishes or suspends into scoring; a scoring task
performs the resolution of lines 1411-1465. -/
def taskStep (cosine : Emb → Emb → Option ℚ)
    (encode : String → Option Emb) (g u : Nat) (now : Int) :
    TaskState × BotState → TaskState × BotState
  | (.pending content, st) =>
    match alookup u st.active with
    | none => (.done .noChallenge, st)
    | some chal =>
      if chal.expires_at < now then
        (.done .expired, { st with active := aremove u st.active })
      else
        (.scoring content chal, st)
  | (.scoring content chal, st) =>
    let r := on_message_resolve cosine encode g u content chal st
    (.done r.1, r.2)
  | (.done r, st) => (.done r, st)

/-- Two concurrent on_message handlers for the same user, scheduled so
that both perform their (lock-free) reads of active_challenges before
either resumes from the scoring thread - an interleaving the asyncio
event loop permits because line 1387 runs outside _active_challenge_lock
and line 1412 suspends the handler. -/
def twoSubmitsBothRead (cosine : Emb → Emb → Option ℚ)
    (encode : String → Option Emb) (g u : Nat) (now : Int)
    (c1 c2 : String) (st : BotState) :
    TaskState × TaskState × BotState :=
  let s1 := taskStep cosine encode g u now (.pending c1, st)
  let s2 := taskStep cosine encode g u now (.pending c2, s1.2)
  let s1b := taskStep cosine encode g u now (s1.1, s2.2)
  let s2b := taskStep cosine encode g u now (s2.1, s1b.2)
  (s1b.1, s2b.1, s2b.2)

/-- A cosine model that always returns similarity 1. -/
def cosOne : Emb → Emb → Option ℚ := fun _ _ => some 1

/-- A cosine model that always returns NaN. -/
def cosNaN : Emb → Emb → Option ℚ := fun _ _ => none

/-- A sentence-transformer model that embeds every text as [1]. -/
def encOne : String → Option Emb := fun _ => some [1]

/-- A sentence-transformer model whose every call raises. -/
def encFail : String → Option Emb := fun _ => none

/-- The state of the freshly created module: empty tables, empty caches,
AUTOINCREMENT counter at 1. -/
def st0 : BotState :=
  { words := [], embeddings := [], nextId := 1, cache := [], lastWord := [],
    active := [], points := [] }

/-- st0 after a successful add of the word w with definition d for user 7
in guild 1. -/
def stAdd : BotState := (add_struggle_word encOne 1 7 "w" "d" st0).2

/-- A live challenge for struggle word 1 expiring at instant 100. -/
def chalC2 : Challenge :=
  { struggle_id := 1, definition := "d", word := "w", expires_at := 100 }

/-- A state in which user 7 holds the live challenge chalC2 on the stored
word of stAdd. -/
def stC2 : BotState :=
  { words := [(1, 7, { id := 1, word := "w", definition := "d" })],
    embeddings := [(1, [1])], nextId := 2, cache := [(1, [1])],
    lastWord := [(7, 1)], active := [(7, chalC2)], points := [] }

/-- Three stored words for user 7 in guild 1, for the selection claims. -/
def words3 : List (Nat × Nat × Row) :=
  [(1, 7, { id := 1, word := "a", definition := "da" }),
   (1, 7, { id := 2, word := "b", definition := "db" }),
   (1, 7, { id := 3, word := "c", definition := "dc" })]

/-- A single stored word for user 7 in guild 1. -/
def words1 : List (Nat × Nat × Row) :=
  [(1, 7, { id := 1, word := "a", definition := "da" })]

/-- A serialized sequence of /challenge invocations by one user: the lock
at line 819 makes every concurrent Open an atomic step, so any concurrent
execution is one of these sequences.  Each call carries its random oracle
and its clock reading. -/
def runOpens (g u : Nat) : List (Nat × Int) → BotState → List OpenResult × BotState
  | [], st => ([], st)
  | c :: rest, st =>
    let s1 := challengeCmd c.1 g u c.2 st
    let s2 := runOpens g u rest s1.2
    (s1.1 :: s2.1, s2.2)

/-- Whether an Open result is a success. -/
def isOpenedB : OpenResult → Bool
  | .opened _ => true
  | _ => false

/-- The number of successful Opens in a result sequence. -/
def countOpened (rs : List OpenResult) : Nat := (rs.filter isOpenedB).length

/-- The state after user 7 opens a challenge in guild 1 from stAdd at
instant 0. -/
def stOpen : BotState := (challengeCmd 0 1 7 0 stAdd).2

/-- The challenge installed in stOpen. -/
def chalOpen : Challenge :=
  { struggle_id := 1, definition := "d", word := "w", expires_at := 90 }

/-- A dict read after an assignment to the same key sees the new value. -/
theorem alookup_dictInsert_self [DecidableEq κ] (k : κ) (v : α) (d : List (κ × α)) :
    alookup k (dictInsert k v d) = some v := by
  simp [dictInsert, alookup]

/-- A dict read after a pop of the same key sees nothing. -/
theorem alookup_aremove_self [DecidableEq κ] (k : κ) (d : List (κ × α)) :
    alookup k (aremove k d) = none := by
  induction d with
  | nil => rfl
  | cons e es ih =>
    by_cases h : e.1 = k
    · simpa [aremove, h] using ih
    · simpa [aremove, alookup, h] using ih

/-- The points upsert adds the amount to the read balance of its own key. -/
theorem get_points_add_points_self (g u : Nat) (a : Int)
    (pts : List ((Nat × Nat) × Int)) :
    get_points g u (add_points g u a pts) = get_points g u pts + a := by
  induction pts with
  | nil => simp [add_points, get_points, alookup]
  | cons e es ih =>
    simp only [add_points]
    by_cases h : e.1 = (g, u)
    · simp [get_points, alookup, h]
    · simpa [get_points, alookup, h] using ih

/-- The points upsert leaves every other key unchanged. -/
theorem get_points_add_points_ne (g1 u1 g2 u2 : Nat) (a : Int)
    (pts : List ((Nat × Nat) × Int)) (h : (g1, u1) ≠ (g2, u2)) :
    get_points g1 u1 (add_points g2 u2 a pts) = get_points g1 u1 pts := by
  have hne : ((g2, u2) : Nat × Nat) ≠ (g1, u1) := fun hh => h hh.symm
  have hne2 : ¬ (g2 = g1 ∧ u2 = u1) := by
    intro hh
    exact h (by rw [hh.1, hh.2])
  induction pts with
  | nil => simp [add_points, get_points, alookup, hne2]
  | cons e es ih =>
    obtain ⟨k, v⟩ := e
    simp only [add_points]
    by_cases h2 : k = (g2, u2)
    · have h3 : ¬ k = (g1, u1) := by rw [h2]; exact hne
      rw [if_pos h2]
      simp [get_points, alookup, h3]
    · rw [if_neg h2]
      by_cases h3 : k = (g1, u1)
      · simp [get_points, alookup, h3]
      · simpa [get_points, alookup, h3] using ih

/-- The score leaving the NaN guard and the clamp is in the unit interval. -/
theorem clampScore_bounds (s : Option ℚ) :
    0 ≤ clampScore s ∧ clampScore s ≤ 1 := by
  cases s with
  | none => constructor <;> norm_num [clampScore]
  | some x =>
    refine ⟨le_max_left 0 _, ?_⟩
    exact max_le (by norm_num) (min_le_left 1 x)

/-- The uniqueness test distributes over appended table segments. -/
theorem hasWord_append (g u : Nat) (w : String) (l1 l2 : List (Nat × Nat × Row)) :
    hasWord g u w (l1 ++ l2) = (hasWord g u w l1 || hasWord g u w l2) := by
  induction l1 with
  | nil => simp [hasWord]
  | cons e es ih =>
    by_cases h : e.1 = g ∧ e.2.1 = u ∧ e.2.2.word = w
    · simp [hasWord, h]
    · simp [hasWord, h, ih]

/-- The random.choice model returns a member of a nonempty list. -/
theorem pickAt_mem (k : Nat) (l : List Row) (h : l ≠ []) : pickAt k l ∈ l := by
  have hlen : k % l.length < l.length :=
    Nat.mod_lt _ (List.length_pos.mpr h)
  rw [pickAt, List.getD_eq_getElem l default hlen]
  exact List.getElem_mem hlen

/-- With at least two rows of pairwise distinct ids, the draw differs from
the remembered id. -/
theorem choose2_ne (k x : Nat) (rows : List Row)
    (hlen : 2 ≤ rows.length) (hnd : (rows.map Row.id).Nodup) :
    (choose2 k (some x) rows).id ≠ x := by
  have hcs : rows.filter (fun r => decide (¬ some r.id = some x)) ≠ [] := by
    intro hemp
    cases rows with
    | nil => simp at hlen
    | cons r1 tl =>
      cases tl with
      | nil => simp at hlen
      | cons r2 rest =>
        have h1 := List.filter_eq_nil_iff.mp hemp r1 (by simp)
        have h2 := List.filter_eq_nil_iff.mp hemp r2 (by simp)
        simp at h1 h2
        rw [List.map_cons, List.map_cons, List.nodup_cons] at hnd
        exact hnd.1 (by rw [h1.trans h2.symm]; exact List.mem_cons_self r2.id _)
  rw [choose2, if_neg hcs]
  have hmem := List.mem_filter.mp (pickAt_mem k _ hcs)
  simpa using hmem.2

/-- The selection returns nothing exactly when the owner has no rows. -/
theorem get_random_fst_none_iff (k g u : Nat) (words : List (Nat × Nat × Row))
    (lw : List (Nat × Nat)) :
    (get_random_struggle_word k g u words lw).1 = none ↔
      get_user_struggle_words g u words = [] := by
  unfold get_random_struggle_word
  cases hrows : get_user_struggle_words g u words with
  | nil => simp
  | cons r1 tl =>
    cases tl with
    | nil => simp
    | cons r2 rest => simp

/-- The command body rejects immediately when the user has an entry in the
live map, whatever its expiry. -/
theorem challengeCmd_of_active (k g u : Nat) (now : Int) (st : BotState)
    (c : Challenge) (h : alookup u st.active = some c) :
    challengeCmd k g u now st = (.alreadyActive, st) := by
  unfold challengeCmd
  rw [h]

/-- An idle user with stored rows gets a fresh entry installed. -/
theorem challengeCmd_opens (k g u : Nat) (now : Int) (st : BotState)
    (hidle : alookup u st.active = none)
    (hwords : get_user_struggle_words g u st.words ≠ []) :
    ∃ r, get_random_struggle_word k g u st.words st.lastWord =
        (some r, (get_random_struggle_word k g u st.words st.lastWord).2) ∧
      challengeCmd k g u now st =
        (.opened r.word,
          { st with
              lastWord := (get_random_struggle_word k g u st.words st.lastWord).2,
              active := dictInsert u
                { struggle_id := r.id, definition := r.definition, word := r.word,
                  expires_at := now + CHALLENGE_TIMEOUT_SECONDS } st.active }) := by
  have h1 : (get_random_struggle_word k g u st.words st.lastWord).1 ≠ none := fun hn =>
    hwords ((get_random_fst_none_iff k g u st.words st.lastWord) |>.mp hn)
  obtain ⟨r, hr⟩ := Option.ne_none_iff_exists'.mp h1
  have hpair : get_random_struggle_word k g u st.words st.lastWord =
      (some r, (get_random_struggle_word k g u st.words st.lastWord).2) := by
    rw [← hr]
  refine ⟨r, hpair, ?_⟩
  unfold challengeCmd
  rw [hidle, hpair]

/-- An opened result leaves the user present in the live map. -/
theorem challengeCmd_opened_active (k g u : Nat) (now : Int) (st : BotState)
    (w : String) (st1 : BotState)
    (h : challengeCmd k g u now st = (.opened w, st1)) :
    ∃ c, alookup u st1.active = some c := by
  unfold challengeCmd at h
  cases hc : alookup u st.active with
  | some c => rw [hc] at h; simp at h
  | none =>
    rw [hc] at h
    cases hrand : get_random_struggle_word k g u st.words st.lastWord with
    | mk o lw2 =>
      rw [hrand] at h
      cases o with
      | none => simp at h
      | some r =>
        have h2 : st1 =
            { st with lastWord := lw2,
                      active := dictInsert u
                        { struggle_id := r.id, definition := r.definition,
                          word := r.word,
                          expires_at := now + CHALLENGE_TIMEOUT_SECONDS }
                        st.active } := by
          have := congrArg Prod.snd h
          simpa using this.symm
        rw [h2]
        exact ⟨_, alookup_dictInsert_self u _ st.active⟩

/-- A success at the head of a result list bumps the count by one. -/
theorem countOpened_cons_opened (w : String) (rs : List OpenResult) :
    countOpened (.opened w :: rs) = countOpened rs + 1 := by
  simp [countOpened, List.filter, isOpenedB]

/-- No Open succeeds while the user stays in the live map. -/
theorem runOpens_count_zero (g u : Nat) (calls : List (Nat × Int))
    (st : BotState) (c : Challenge) (h : alookup u st.active = some c) :
    countOpened (runOpens g u calls st).1 = 0 := by
  induction calls with
  | nil => rfl
  | cons cc rest ih =>
    simp only [runOpens, challengeCmd_of_active cc.1 g u cc.2 st c h]
    simpa [countOpened, List.filter, isOpenedB] using ih

/-- A message from a user with no live entry falls through unanswered. -/
theorem on_message_of_idle (cosine : Emb → Emb → Option ℚ)
    (encode : String → Option Emb) (g u : Nat) (content : String) (now : Int)
    (st : BotState) (h : alookup u st.active = none) :
    on_message cosine encode g u content now st = (.noChallenge, st) := by
  unfold on_message
  rw [h]

/-- An unexpired entry whose answer scores at or above the threshold
resolves Correct: points awarded in the message guild, entry popped. -/
theorem on_message_correct_case (cosine : Emb → Emb → Option ℚ)
    (encode : String → Option Emb) (g u : Nat) (content : String) (now : Int)
    (st : BotState) (chal : Challenge) (score : ℚ) (cache2 : List (Nat × Emb))
    (hc : alookup u st.active = some chal)
    (hexp : ¬ chal.expires_at < now)
    (heval : evaluate_answer cosine encode (pyStrip content) chal.definition
      chal.struggle_id st.cache st.embeddings = (some score, cache2))
    (hth : CHALLENGE_SIM_THRESHOLD ≤ score) :
    on_message cosine encode g u content now st =
      (.correct score,
        { st with cache := cache2,
                  points := add_points g u POINTS_PER_CORRECT st.points,
                  active := aremove u st.active }) := by
  simp only [on_message, hc, if_neg hexp, on_message_resolve, heval, if_pos hth]

/-- An unexpired entry whose answer scores below the threshold resolves
Incorrect: no points, entry popped. -/
theorem on_message_incorrect_case (cosine : Emb → Emb → Option ℚ)
    (encode : String → Option Emb) (g u : Nat) (content : String) (now : Int)
    (st : BotState) (chal : Challenge) (score : ℚ) (cache2 : List (Nat × Emb))
    (hc : alookup u st.active = some chal)
    (hexp : ¬ chal.expires_at < now)
    (heval : evaluate_answer cosine encode (pyStrip content) chal.definition
      chal.struggle_id st.cache st.embeddings = (some score, cache2))
    (hth : ¬ CHALLENGE_SIM_THRESHOLD ≤ score) :
    on_message cosine encode g u content now st =
      (.incorrect score,
        { st with cache := cache2, active := aremove u st.active }) := by
  simp only [on_message, hc, if_neg hexp, on_message_resolve, heval, if_neg hth]

/-- Every path of the resolution code pops the entry of the author. -/
theorem on_message_resolve_active (cosine : Emb → Emb → Option ℚ)
    (encode : String → Option Emb) (g u : Nat) (content : String)
    (chal : Challenge) (st : BotState) :
    (on_message_resolve cosine encode g u content chal st).2.active =
      aremove u st.active := by
  unfold on_message_resolve
  cases hev : evaluate_answer cosine encode (pyStrip content) chal.definition
      chal.struggle_id st.cache st.embeddings with
  | mk s? cache2 =>
    cases s? with
    | none => rfl
    | some s =>
      by_cases hth : CHALLENGE_SIM_THRESHOLD ≤ s
      · simp [hth]
      · simp [hth]

/-- Whenever a message is answered at all, the entry of the author is
gone from the live map afterwards. -/
theorem on_message_resolved_removes (cosine : Emb → Emb → Option ℚ)
    (encode : String → Option Emb) (g u : Nat) (content : String) (now : Int)
    (st : BotState)
    (h : (on_message cosine encode g u content now st).1 ≠ .noChallenge) :
    (on_message cosine encode g u content now st).2.active =
      aremove u st.active := by
  unfold on_message at h ⊢
  cases hc : alookup u st.active with
  | none => rw [hc] at h; exact absurd rfl h
  | some chal =>
    by_cases hexp : chal.expires_at < now
    · simp [hexp]
    · show (if chal.expires_at < now then
            (SubmitResult.expired, { st with active := aremove u st.active })
          else on_message_resolve cosine encode g u content chal st).2.active =
          aremove u st.active
      rw [if_neg hexp]
      exact on_message_resolve_active cosine encode g u content chal st

/-- Coherence of the trace model: one handler run alone through its two
scheduler steps agrees with the direct on_message function. -/
theorem on_message_as_two_taskSteps (cosine : Emb → Emb → Option ℚ)
    (encode : String → Option Emb) (g u : Nat) (content : String) (now : Int)
    (st : BotState) :
    taskStep cosine encode g u now
        (taskStep cosine encode g u now (.pending content, st)) =
      (.done (on_message cosine encode g u content now st).1,
        (on_message cosine encode g u content now st).2) := by
  unfold on_message
  cases hc : alookup u st.active with
  | none => simp [taskStep, hc]
  | some chal =>
    by_cases hexp : chal.expires_at < now
    · simp [taskStep, hc, hexp]
    · simp [taskStep, hc, hexp]

/-- C1: at most one active challenge per user.  The /challenge command
body returns the already-active error whenever the user has an entry in
the live map; the check and the install are the single atomic critical
section challengeCmd (the whole body runs under the module lock, lines
819-842); and any nonempty sequence of concurrent Open calls by one user
who starts Idle and has stored words - serialized in an arbitrary order
by the lock - has exactly one success. -/
theorem challenge_open_at_most_one_active :
    (∀ k g u now st c, alookup u st.active = some c →
      challengeCmd k g u now st = (.alreadyActive, st)) ∧
    (∀ g u calls st, calls ≠ [] →
      alookup u st.active = none →
      get_user_struggle_words g u st.words ≠ [] →
      countOpened (runOpens g u calls st).1 = 1) := by
  constructor
  · exact fun k g u now st c h => challengeCmd_of_active k g u now st c h
  · intro g u calls st hne hidle hwords
    cases calls with
    | nil => exact absurd rfl hne
    | cons cc rest =>
      obtain ⟨r, hrand, hcmd⟩ := challengeCmd_opens cc.1 g u cc.2 st hidle hwords
      simp only [runOpens, hcmd]
      rw [countOpened_cons_opened]
      rw [runOpens_count_zero g u rest _ _ (alookup_dictInsert_self u _ st.active)]

/-- C1 witness: an already-active user is rejected, and three consecutive
Open calls from the Idle one-word state succeed exactly once. -/
theorem challenge_open_at_most_one_active_witness :
    challengeCmd 0 1 7 0 stC2 = (.alreadyActive, stC2) ∧
    countOpened (runOpens 1 7 [(0, 0), (0, 1), (0, 2)] stAdd).1 = 1 :=
  ⟨challenge_open_at_most_one_active.1 0 1 7 0 stC2 chalC2 (by decide),
   challenge_open_at_most_one_active.2 1 7 [(0, 0), (0, 1), (0, 2)] stAdd
     (by decide) (by decide) (by decide)⟩

/-- C3: expiry precedence.  A message from a user whose live entry has
passed its expiry (now strictly past expires_at, line 1395) is answered
with the expired outcome and removed from the live map - before any
Reaper sweep - and nothing is scored: the points, the cache and every
other component of the state are untouched. -/
theorem submit_expired_rejected :
    ∀ cosine encode g u content now st chal,
      alookup u st.active = some chal →
      chal.expires_at < now →
      on_message cosine encode g u content now st =
        (.expired, { st with active := aremove u st.active }) ∧
      alookup u (on_message cosine encode g u content now st).2.active = none ∧
      (on_message cosine encode g u content now st).2.points = st.points ∧
      (on_message cosine encode g u content now st).2.cache = st.cache := by
  intro cosine encode g u content now st chal hc hlt
  have he : on_message cosine encode g u content now st =
      (.expired, { st with active := aremove u st.active }) := by
    simp only [on_message, hc, if_pos hlt]
  refine ⟨he, ?_, by rw [he], by rw [he]⟩
  rw [he]
  exact alookup_aremove_self u st.active

/-- C3 witness: at instant 200 the challenge of stC2 (expiring at 100) is
rejected as expired without scoring. -/
theorem submit_expired_rejected_witness :
    on_message cosOne encOne 1 7 "d" 200 stC2 =
      (.expired, { stC2 with active := aremove 7 stC2.active }) ∧
    alookup 7 (on_message cosOne encOne 1 7 "d" 200 stC2).2.active = none ∧
    (on_message cosOne encOne 1 7 "d" 200 stC2).2.points = stC2.points ∧
    (on_message cosOne encOne 1 7 "d" 200 stC2).2.cache = stC2.cache :=
  submit_expired_rejected cosOne encOne 1 7 "d" 200 stC2 chalC2 (by decide) (by decide)

/-- C4: threshold decisioning.  The threshold is 0.50 and the award is 5;
for an answer evaluated against an unexpired entry, the outcome is
Correct exactly when the score reaches the threshold, a Correct outcome
adds exactly POINTS_PER_CORRECT to the balance of the author, and an
Incorrect outcome leaves the points untouched. -/
theorem submit_threshold_scoring :
    CHALLENGE_SIM_THRESHOLD = mkRat 1 2 ∧ POINTS_PER_CORRECT = 5 ∧
    ∀ cosine encode g u content now st chal score cache2,
      alookup u st.active = some chal →
      ¬ chal.expires_at < now →
      evaluate_answer cosine encode (pyStrip content) chal.definition
          chal.struggle_id st.cache st.embeddings = (some score, cache2) →
      (((on_message cosine encode g u content now st).1 = .correct score) ↔
        CHALLENGE_SIM_THRESHOLD ≤ score) ∧
      (CHALLENGE_SIM_THRESHOLD ≤ score →
        get_points g u (on_message cosine encode g u content now st).2.points =
          get_points g u st.points + POINTS_PER_CORRECT) ∧
      (¬ CHALLENGE_SIM_THRESHOLD ≤ score →
        (on_message cosine encode g u content now st).1 = .incorrect score ∧
        (on_message cosine encode g u content now st).2.points = st.points) := by
  refine ⟨rfl, rfl, ?_⟩
  intro cosine encode g u content now st chal score cache2 hc hexp heval
  by_cases hth : CHALLENGE_SIM_THRESHOLD ≤ score
  · have hmsg := on_message_correct_case cosine encode g u content now st chal
      score cache2 hc hexp heval hth
    rw [hmsg]
    refine ⟨by simp [hth], fun _ => ?_, fun hn => absurd hth hn⟩
    exact get_points_add_points_self g u POINTS_PER_CORRECT st.points
  · have hmsg := on_message_incorrect_case cosine encode g u content now st chal
      score cache2 hc hexp heval hth
    rw [hmsg]
    exact ⟨by simp [hth], fun hp => absurd hp hth, fun _ => ⟨rfl, rfl⟩⟩

/-- C4 witness: in stC2 the answer scoring 1 resolves Correct and awards
exactly 5 points. -/
theorem submit_threshold_scoring_witness :
    ((on_message cosOne encOne 1 7 "d" 0 stC2).1 = .correct 1 ↔
      CHALLENGE_SIM_THRESHOLD ≤ 1) ∧
    get_points 1 7 (on_message cosOne encOne 1 7 "d" 0 stC2).2.points =
      get_points 1 7 stC2.points + POINTS_PER_CORRECT := by
  have h := submit_threshold_scoring.2.2 cosOne encOne 1 7 "d" 0 stC2 chalC2 1
    stC2.cache (by decide) (by decide) (by decide)
  exact ⟨h.1, h.2.1 (by decide)⟩

/-- C2 counterexample: the read of active_challenges at line 1387 runs
outside the lock and the handler suspends at the scoring thread call at
line 1412, so two messages from the same user can both read the one live
entry before either resolution runs; in that interleaving both handlers
return Correct and the award lands twice (10 points for one challenge).
This refutes the claim that Submit atomically reads and removes the entry
before scoring and that at most one Submit per challenge can award. -/
theorem submit_double_resolution_counterexample :
    (twoSubmitsBothRead cosOne encOne 1 7 0 "d" "d" stC2).1 =
      .done (.correct 1) ∧
    (twoSubmitsBothRead cosOne encOne 1 7 0 "d" "d" stC2).2.1 =
      .done (.correct 1) ∧
    get_points 1 7 (twoSubmitsBothRead cosOne encOne 1 7 0 "d" "d" stC2).2.2.points =
      2 * POINTS_PER_CORRECT := by
  refine ⟨by decide, by decide, by decide⟩

/-- C2 amended: the handler reads the entry without the lock and removes
it under the lock only after scoring; when the messages of a user are
processed one at a time, every resolution removes the entry, so any
further message finds no challenge and changes nothing - sequentially
the challenge resolves at most once - but handlers interleaved across
the scoring step can resolve the same challenge twice (see the
counterexample). -/
theorem submit_sequential_at_most_once :
    ∀ cosine encode g1 g2 u c1 c2 t1 t2 st,
      (on_message cosine encode g1 u c1 t1 st).1 ≠ .noChallenge →
      on_message cosine encode g2 u c2 t2
          (on_message cosine encode g1 u c1 t1 st).2 =
        (.noChallenge, (on_message cosine encode g1 u c1 t1 st).2) := by
  intro cosine encode g1 g2 u c1 c2 t1 t2 st h
  apply on_message_of_idle
  rw [on_message_resolved_removes cosine encode g1 u c1 t1 st h]
  exact alookup_aremove_self u st.active

/-- C2 amended witness: after the Correct resolution in stC2, a further
message from user 7 finds no challenge and leaves the state unchanged. -/
theorem submit_sequential_at_most_once_witness :
    on_message cosOne encOne 1 7 "x" 5 (on_message cosOne encOne 1 7 "d" 0 stC2).2 =
      (.noChallenge, (on_message cosOne encOne 1 7 "d" 0 stC2).2) :=
  submit_sequential_at_most_once cosOne encOne 1 1 7 "d" "x" 0 5 stC2 (by decide)

/-- C8: similarity boundedness.  Whatever the external model and cosine
return, every score evaluate_answer produces lies in the unit interval
(the miss and missing-row paths give 0, every finite similarity is
clamped), and a NaN similarity (the cosine returning none, caught by the
sim != sim guard at line 490) is mapped to 0, never propagated. -/
theorem evaluate_answer_bounded :
    (∀ cosine encode ua cd sid cache db s cache2,
      evaluate_answer cosine encode ua cd sid cache db = (some s, cache2) →
      0 ≤ s ∧ s ≤ 1) ∧
    (∀ cosine encode ua cd sid cache db v a,
      alookup sid cache = some v → encode ua = some a → cosine v a = none →
      evaluate_answer cosine encode ua cd sid cache db = (some 0, cache)) := by
  constructor
  · intro cosine encode ua cd sid cache db s cache2 h
    unfold evaluate_answer at h
    cases hc : alookup sid cache with
    | some v =>
      rw [hc] at h
      cases he : encode ua with
      | none => rw [he] at h; simp at h
      | some a =>
        rw [he] at h
        have hs : clampScore (cosine v a) = s := by
          have := congrArg Prod.fst h
          simpa using this
        rw [← hs]
        exact clampScore_bounds (cosine v a)
    | none =>
      rw [hc] at h
      cases hd : alookup sid db with
      | none =>
        rw [hd] at h
        have hs : (0 : ℚ) = s := by
          have := congrArg Prod.fst h
          simpa using this
        rw [← hs]
        norm_num
      | some v =>
        rw [hd] at h
        cases he : encode ua with
        | none => rw [he] at h; simp at h
        | some a =>
          rw [he] at h
          have hs : clampScore (cosine v a) = s := by
            have := congrArg Prod.fst h
            simpa using this
          rw [← hs]
          exact clampScore_bounds (cosine v a)
  · intro cosine encode ua cd sid cache db v a hv ha hnan
    unfold evaluate_answer
    rw [hv, ha]
    show (some (clampScore (cosine v a)), cache) = (some 0, cache)
    rw [hnan]
    rfl

/-- C8 witness: a cache-hit evaluation scoring 1 is inside the unit
interval, and a NaN cosine result is returned as score 0. -/
theorem evaluate_answer_bounded_witness :
    ((0 : ℚ) ≤ 1 ∧ (1 : ℚ) ≤ 1) ∧
    evaluate_answer cosNaN encOne "x" "d" 1 stC2.cache stC2.embeddings =
      (some 0, stC2.cache) :=
  ⟨evaluate_answer_bounded.1 cosOne encOne "d" "d" 1 stC2.cache stC2.embeddings 1
     stC2.cache (by decide),
   evaluate_answer_bounded.2 cosNaN encOne "x" "d" 1 stC2.cache stC2.embeddings
     [1] [1] (by decide) (by decide) (by decide)⟩

/-- C10: the live challenge map (line 49) and the selection memory
(line 445) are keyed by the user id alone, with no guild in the key.  So
once a user opens a challenge in one guild, an Open in any other guild is
rejected as already active; a message from that user in any guild
resolves the challenge; and on a Correct outcome the award is written to
the (guild, user) balance of the guild the message was sent in, leaving
the balance in the challenge guild untouched when the two differ. -/
theorem challenge_keyed_by_user_only :
    ∀ cosine encode k2 g1 g2 u k t1 t2 t3 content st w st1,
      challengeCmd k g1 u t1 st = (.opened w, st1) →
      challengeCmd k2 g2 u t2 st1 = (.alreadyActive, st1) ∧
      (∀ chal score cache2,
        alookup u st1.active = some chal →
        ¬ chal.expires_at < t3 →
        evaluate_answer cosine encode (pyStrip content) chal.definition
            chal.struggle_id st1.cache st1.embeddings = (some score, cache2) →
        CHALLENGE_SIM_THRESHOLD ≤ score →
        (on_message cosine encode g2 u content t3 st1).1 = .correct score ∧
        get_points g2 u (on_message cosine encode g2 u content t3 st1).2.points =
          get_points g2 u st1.points + POINTS_PER_CORRECT ∧
        (g1 ≠ g2 →
          get_points g1 u (on_message cosine encode g2 u content t3 st1).2.points =
            get_points g1 u st1.points) ∧
        alookup u (on_message cosine encode g2 u content t3 st1).2.active = none) := by
  intro cosine encode k2 g1 g2 u k t1 t2 t3 content st w st1 hopen
  obtain ⟨c, hact⟩ := challengeCmd_opened_active k g1 u t1 st w st1 hopen
  refine ⟨challengeCmd_of_active k2 g2 u t2 st1 c hact, ?_⟩
  intro chal score cache2 hc hexp heval hth
  have hmsg := on_message_correct_case cosine encode g2 u content t3 st1 chal
    score cache2 hc hexp heval hth
  rw [hmsg]
  refine ⟨rfl, ?_, ?_, ?_⟩
  · exact get_points_add_points_self g2 u POINTS_PER_CORRECT st1.points
  · intro hg
    exact get_points_add_points_ne g1 u g2 u POINTS_PER_CORRECT st1.points
      (fun hh => hg (congrArg Prod.fst hh))
  · exact alookup_aremove_self u st1.active

/-- C10 witness: the challenge opened in guild 1 blocks an Open in guild
2; the answer message sent in guild 2 resolves it Correct, credits 5
points under (guild 2, user 7), and leaves (guild 1, user 7) untouched. -/
theorem challenge_keyed_by_user_only_witness :
    challengeCmd 5 2 7 10 stOpen = (.alreadyActive, stOpen) ∧
    (on_message cosOne encOne 2 7 "d" 0 stOpen).1 = .correct 1 ∧
    get_points 2 7 (on_message cosOne encOne 2 7 "d" 0 stOpen).2.points =
      get_points 2 7 stOpen.points + POINTS_PER_CORRECT ∧
    get_points 1 7 (on_message cosOne encOne 2 7 "d" 0 stOpen).2.points =
      get_points 1 7 stOpen.points ∧
    alookup 7 (on_message cosOne encOne 2 7 "d" 0 stOpen).2.active = none := by
  have h := challenge_keyed_by_user_only cosOne encOne 5 1 2 7 0 0 10 0 "d"
    stAdd "w" stOpen (by decide)
  have hb := h.2 chalOpen 1 stOpen.cache (by decide) (by decide) (by decide)
    (by decide)
  exact ⟨h.1, hb.1, hb.2.1, hb.2.2.1 (by decide), hb.2.2.2⟩

/-- A duplicate key makes add_struggle_word abort with no state change. -/
theorem add_struggle_word_of_hasWord (embed : String → Option Emb)
    (g u : Nat) (w d : String) (st : BotState)
    (h : hasWord g u (pyLower w) st.words = true) :
    add_struggle_word embed g u w d st = (.duplicate, st) := by
  unfold add_struggle_word
  rw [if_pos h]

/-- C5 counterexample: adding a word while the embedding call raises
commits the word row (lines 393-397 commit before embed_text runs at
line 403) and aborts, leaving a stored word with no fingerprint - the
partial write is not rolled back. -/
theorem add_rollback_counterexample :
    (add_struggle_word encFail 1 7 "w" "d" st0).1 = .embedFailed ∧
    (add_struggle_word encFail 1 7 "w" "d" st0).2.words =
      [(1, 7, { id := 1, word := "w", definition := "d" })] ∧
    (add_struggle_word encFail 1 7 "w" "d" st0).2.embeddings = [] := by
  refine ⟨by decide, by decide, by decide⟩

/-- C5 amended: on success the fingerprint is computed and persisted (and
cached) before Add returns, but the operation is not atomic: the word
insert is committed before the embedding step, so when the embedding call
fails the word row stays committed without a fingerprint - there is no
rollback. -/
theorem add_fingerprint_persisted :
    ∀ embed g u w d st e,
      ((add_struggle_word embed g u w d st).1 = .ok → embed d = some e →
        (add_struggle_word embed g u w d st).2 =
          { st with
              words := st.words ++
                [(g, u, { id := st.nextId, word := pyLower w, definition := pyLower d })],
              nextId := st.nextId + 1,
              embeddings := st.embeddings ++ [(st.nextId, e)],
              cache := dictInsert st.nextId e st.cache }) ∧
      ((add_struggle_word embed g u w d st).1 = .embedFailed →
        embed d = none ∧
        (add_struggle_word embed g u w d st).2 =
          { st with
              words := st.words ++
                [(g, u, { id := st.nextId, word := pyLower w, definition := pyLower d })],
              nextId := st.nextId + 1 }) := by
  intro embed g u w d st e
  by_cases hdup : hasWord g u (pyLower w) st.words
  · rw [add_struggle_word_of_hasWord embed g u w d st hdup]
    exact ⟨fun hok _ => by simp at hok, fun hef => by simp at hef⟩
  · cases hemb : embed d with
    | none =>
      constructor
      · intro hok _
        exfalso
        simp [add_struggle_word, hdup, hemb] at hok
      · intro _
        exact ⟨rfl, by simp [add_struggle_word, hdup, hemb]⟩
    | some e0 =>
      constructor
      · intro _ he
        have he0 : e0 = e := Option.some.inj he
        subst he0
        simp [add_struggle_word, hdup, hemb]
      · intro hef
        exfalso
        simp [add_struggle_word, hdup, hemb] at hef

/-- C5 witness: a successful Add persists the fingerprint with the new
row before returning, and a failing embedding leaves the committed word
with no embedding row. -/
theorem add_fingerprint_persisted_witness :
    (add_struggle_word encOne 1 7 "w" "d" st0).2 =
      { st0 with
          words := st0.words ++
            [(1, 7, { id := st0.nextId, word := pyLower "w", definition := pyLower "d" })],
          nextId := st0.nextId + 1,
          embeddings := st0.embeddings ++ [(st0.nextId, [1])],
          cache := dictInsert st0.nextId [1] st0.cache } ∧
    encFail "d" = none ∧
    (add_struggle_word encFail 1 7 "w" "d" st0).2 =
      { st0 with
          words := st0.words ++
            [(1, 7, { id := st0.nextId, word := pyLower "w", definition := pyLower "d" })],
          nextId := st0.nextId + 1 } := by
  refine ⟨(add_fingerprint_persisted encOne 1 7 "w" "d" st0 [1]).1 (by decide) (by decide),
          ((add_fingerprint_persisted encFail 1 7 "w" "d" st0 [1]).2 (by decide)).1,
          ((add_fingerprint_persisted encFail 1 7 "w" "d" st0 [1]).2 (by decide)).2⟩

/-- C6 counterexample: after a successful Remove the cached fingerprint
of the removed id is still present (remove_struggle_word never touches
struggle_embedding_cache), and a subsequent evaluation for that id is
served the deleted fingerprint from the cache (score 1) although the
embedding row is gone from the table. -/
theorem remove_stale_cache_counterexample :
    (remove_struggle_word 1 7 "w" stAdd).1 = true ∧
    alookup 1 (remove_struggle_word 1 7 "w" stAdd).2.cache = some [1] ∧
    alookup 1 (remove_struggle_word 1 7 "w" stAdd).2.embeddings = none ∧
    (evaluate_answer cosOne encOne "x" "d" 1
        (remove_struggle_word 1 7 "w" stAdd).2.cache
        (remove_struggle_word 1 7 "w" stAdd).2.embeddings).1 = some 1 := by
  refine ⟨by decide, by decide, by decide, by decide⟩

/-- C6 amended: a successful Remove deletes the word row and its
embedding row, but it does not invalidate the in-memory fingerprint
cache: the cache is returned unchanged, and any later evaluation whose id
still sits in the cache is served that cached vector without consulting
the store. -/
theorem remove_keeps_cache_entry :
    ∀ g u w st sid,
      findWordId g u (pyLower w) st.words = some sid →
      remove_struggle_word g u w st =
        (true, { st with embeddings := aremove sid st.embeddings,
                         words := removeWordById sid st.words }) ∧
      (remove_struggle_word g u w st).2.cache = st.cache ∧
      (∀ cosine encode ua cd v a cache db,
        alookup sid cache = some v → encode ua = some a →
        evaluate_answer cosine encode ua cd sid cache db =
          (some (clampScore (cosine v a)), cache)) := by
  intro g u w st sid hfind
  have h1 : remove_struggle_word g u w st =
      (true, { st with embeddings := aremove sid st.embeddings,
                       words := removeWordById sid st.words }) := by
    unfold remove_struggle_word
    rw [hfind]
  refine ⟨h1, by rw [h1], ?_⟩
  intro cosine encode ua cd v a cache db hv ha
  unfold evaluate_answer
  rw [hv, ha]

/-- C6 witness: removing the one stored word of stAdd keeps the cache
entry for id 1 and that entry keeps serving evaluations. -/
theorem remove_keeps_cache_entry_witness :
    remove_struggle_word 1 7 "w" stAdd =
      (true, { stAdd with embeddings := aremove 1 stAdd.embeddings,
                          words := removeWordById 1 stAdd.words }) ∧
    (remove_struggle_word 1 7 "w" stAdd).2.cache = stAdd.cache ∧
    evaluate_answer cosOne encOne "x" "d" 1
        (remove_struggle_word 1 7 "w" stAdd).2.cache
        (remove_struggle_word 1 7 "w" stAdd).2.embeddings =
      (some (clampScore (cosOne [1] [1])), (remove_struggle_word 1 7 "w" stAdd).2.cache) := by
  have h := remove_keeps_cache_entry 1 7 "w" stAdd 1 (by decide)
  exact ⟨h.1, h.2.1, h.2.2 cosOne encOne "x" "d" [1] [1] _ _ (by decide) (by decide)⟩

/-- C7 counterexample: the source lowercases the term (str.lower, line
390) but never trims it, so two Adds by the same owner whose terms differ
only in surrounding whitespace do not collide: both succeed and two rows
are stored. -/
theorem add_whitespace_no_collision_counterexample :
    (add_struggle_word encOne 1 7 "book" "b" st0).1 = .ok ∧
    (add_struggle_word encOne 1 7 "book " "b2"
        (add_struggle_word encOne 1 7 "book" "b" st0).2).1 = .ok := by
  refine ⟨by decide, by decide⟩

/-- C7 amended: Add lowercases the term before the per-owner uniqueness
check but does not trim whitespace; consequently two Adds whose terms
agree after lowercasing - in particular terms differing only in letter
case - collide, the second returning the duplicate error with no state
change, while terms differing only in surrounding whitespace are stored
as distinct words (see the counterexample). -/
theorem add_lowercase_collision :
    ∀ embed g u w1 w2 d1 d2 st,
      (add_struggle_word embed g u w1 d1 st).1 ≠ .duplicate →
      pyLower w2 = pyLower w1 →
      add_struggle_word embed g u w2 d2 (add_struggle_word embed g u w1 d1 st).2 =
        (.duplicate, (add_struggle_word embed g u w1 d1 st).2) := by
  intro embed g u w1 w2 d1 d2 st hnd hlow
  by_cases hdup : hasWord g u (pyLower w1) st.words
  · exact absurd (by rw [add_struggle_word_of_hasWord embed g u w1 d1 st hdup]) hnd
  · have hwords : (add_struggle_word embed g u w1 d1 st).2.words =
        st.words ++
          [(g, u, { id := st.nextId, word := pyLower w1, definition := pyLower d1 })] := by
      cases hemb : embed d1 with
      | none => simp [add_struggle_word, hdup, hemb]
      | some e => simp [add_struggle_word, hdup, hemb]
    have hhas : hasWord g u (pyLower w2)
        (add_struggle_word embed g u w1 d1 st).2.words = true := by
      rw [hwords, hlow, hasWord_append]
      simp [hasWord]
    exact add_struggle_word_of_hasWord embed g u w2 d2 _ hhas

/-- C7 witness: Book and BOOK collide for the same owner: the second Add
is rejected as the duplicate. -/
theorem add_lowercase_collision_witness :
    add_struggle_word encOne 1 7 "BOOK" "b2"
        (add_struggle_word encOne 1 7 "Book" "b" st0).2 =
      (.duplicate, (add_struggle_word encOne 1 7 "Book" "b" st0).2) :=
  add_lowercase_collision encOne 1 7 "Book" "BOOK" "b" "b2" st0
    (by decide) (by decide)

/-- C9 counterexample: with three stored words, after word 1 and then
word 2 were served, a third draw returns word 1 - a word inside the last
~5 (here the last two) served ids - because the memory at line 445 holds
only the single last-served id, so only word 2 is excluded. -/
theorem pick_recent_repeat_counterexample :
    (get_random_struggle_word 0 1 7 words3 []).1 =
      some { id := 1, word := "a", definition := "da" } ∧
    (get_random_struggle_word 0 1 7 words3
        (get_random_struggle_word 0 1 7 words3 []).2).1 =
      some { id := 2, word := "b", definition := "db" } ∧
    (get_random_struggle_word 0 1 7 words3
        (get_random_struggle_word 0 1 7 words3
          (get_random_struggle_word 0 1 7 words3 []).2).2).1 =
      some { id := 1, word := "a", definition := "da" } := by
  refine ⟨by decide, by decide, by decide⟩

/-- C9 amended: the selection returns nothing exactly when the owner has
zero rows; with exactly one row it returns that row; with two or more
rows of distinct ids it never returns the single remembered last-served
id (the memory holds one id, not the last ~5, and with distinct ids the
exclusion can never empty the candidates, so the full-set fallback at
line 458 stays unreachable); and the memory is updated to the served id
after every selection. -/
theorem pick_word_properties :
    ∀ k g u words lw,
      ((get_random_struggle_word k g u words lw).1 = none ↔
        get_user_struggle_words g u words = []) ∧
      (∀ r, get_user_struggle_words g u words = [r] →
        get_random_struggle_word k g u words lw = (some r, dictInsert u r.id lw)) ∧
      (∀ x r, 2 ≤ (get_user_struggle_words g u words).length →
        ((get_user_struggle_words g u words).map Row.id).Nodup →
        alookup u lw = some x →
        (get_random_struggle_word k g u words lw).1 = some r →
        r.id ≠ x) ∧
      (∀ r, (get_random_struggle_word k g u words lw).1 = some r →
        alookup u (get_random_struggle_word k g u words lw).2 = some r.id) := by
  intro k g u words lw
  refine ⟨get_random_fst_none_iff k g u words lw, ?_, ?_, ?_⟩
  · intro r hr
    unfold get_random_struggle_word
    rw [hr]
  · intro x r hlen hnd hx hr
    unfold get_random_struggle_word at hr
    cases hrows : get_user_struggle_words g u words with
    | nil => rw [hrows] at hlen; simp at hlen
    | cons r1 tl =>
      cases tl with
      | nil => rw [hrows] at hlen; simp at hlen
      | cons r2 rest =>
        rw [hrows] at hr hlen hnd
        simp only [hx] at hr
        simp at hr
        rw [← hr]
        exact choose2_ne k x (r1 :: r2 :: rest) hlen hnd
  · intro r hr
    unfold get_random_struggle_word at hr ⊢
    cases hrows : get_user_struggle_words g u words with
    | nil => rw [hrows] at hr; simp at hr
    | cons r1 tl =>
      cases tl with
      | nil =>
        rw [hrows] at hr
        simp at hr
        subst hr
        exact alookup_dictInsert_self u r1.id lw
      | cons r2 rest =>
        rw [hrows] at hr
        simp at hr
        rw [← hr]
        exact alookup_dictInsert_self u _ lw

/-- C9 witness: the empty-owner equivalence at words3; the single word of
words1 is always served and remembered; with words3 and remembered id 2
the draw avoids id 2; and the served id is written to the memory. -/
theorem pick_word_properties_witness :
    ((get_random_struggle_word 0 1 7 words3 []).1 = none ↔
      get_user_struggle_words 1 7 words3 = []) ∧
    get_random_struggle_word 0 1 7 words1 [] =
      (some { id := 1, word := "a", definition := "da" }, dictInsert 7 1 []) ∧
    ({ id := 1, word := "a", definition := "da" } : Row).id ≠ 2 ∧
    alookup 7 (get_random_struggle_word 0 1 7 words3 [(7, 2)]).2 =
      some ({ id := 1, word := "a", definition := "da" } : Row).id := by
  refine ⟨(pick_word_properties 0 1 7 words3 []).1, ?_, ?_, ?_⟩
  · exact (pick_word_properties 0 1 7 words1 []).2.1 _ (by decide)
  · exact (pick_word_properties 0 1 7 words3 [(7, 2)]).2.2.1 2 _ (by decide)
      (by decide) (by decide) (by decide)
  · exact (pick_word_properties 0 1 7 words3 [(7, 2)]).2.2.2 _ (by decide)

end ArabicBot
